import Mathlib

/-!
Verification of the `connectauth` authentication middleware (Go package).

Shallow embedding: Go strings are byte sequences, modelled as `List Char`
(all operations used — prefix/suffix tests, `strings.LastIndex`, slicing,
`len` — are byte-indexed, so the list model is index-faithful).  Go's
`context.Context` is an immutable chain of key/value nodes; `any` values
that may be `nil` are `Option`; errors are an abstract type `ε` and the
`(any, error)` return pair of an `AuthFunc` is `Option α × Option ε`.
The HTTP middleware and the unary/streaming interceptors are embedded as
functions that, in addition to their Go return value, record the observable
events of one call (authentication-function invocations, invocations of the
wrapped next stage, errors written), so that "the next stage is never
invoked" and ordering claims become statements about the event log.
-/

namespace Connectauth

/-- A Go string viewed as its byte sequence. -/
abbrev GoString := List Char

/-- `http.Header`: a mapping from (canonical) header name to values. -/
abbrev HTTPHeader := List (GoString × List GoString)

/-- `context.Context`: an immutable chain of key/value nodes.  `root` is the
incoming base context; `withValue` models `context.WithValue` (the stored
value is `Option α` because a Go `any` value may be `nil`). -/
inductive Context (α : Type) where
  | root : Context α
  | withValue (parent : Context α) (key : Nat) (val : Option α) : Context α
deriving DecidableEq

/-- `ctx.Value(key)`: walk the chain outward; the first node bearing `key`
answers with its stored value (even when that value is `nil`), shadowing
any ancestor binding. -/
def Context.value {α : Type} : Context α → Nat → Option α
  | .root, _ => none
  | .withValue p k v, key => if k = key then v else p.value key

/-- The package-private context key (`const infoKey key = iota`). -/
def infoKey : Nat := 0

/-- `SetInfo`: attaches authentication information to the context; a `nil`
info returns the context unchanged. -/
def SetInfo {α : Type} (ctx : Context α) (info : Option α) : Context α :=
  match info with
  | none => ctx
  | some _ => Context.withValue ctx infoKey info

/-- `GetInfo`: retrieves authentication information, if any, from the
context. -/
def GetInfo {α : Type} (ctx : Context α) : Option α :=
  ctx.value infoKey

/-- `WithoutInfo`: strips the authentication information by overwriting the
binding with `nil`. -/
def WithoutInfo {α : Type} (ctx : Context α) : Context α :=
  Context.withValue ctx infoKey none

/-- `strings.HasPrefix`. -/
def strHasPrefix (s pre : GoString) : Bool :=
  pre.isPrefixOf s

/-- `strings.HasSuffix`. -/
def strHasSuffix (s suf : GoString) : Bool :=
  suf.isSuffixOf s

/-- `strings.TrimSuffix`: removes one copy of `suf` when present. -/
def strTrimSuffix (s suf : GoString) : GoString :=
  if strHasSuffix s suf then s.take (s.length - suf.length) else s

/-- `strings.LastIndex s c` for a one-byte needle: the index of the last
occurrence of `c`, or `none` for Go's `-1`. -/
def strLastIndex : GoString → Char → Option Nat
  | [], _ => none
  | a :: as, c =>
    match strLastIndex as c with
    | some i => some (i + 1)
    | none => if a = c then some 0 else none

/-- Number of occurrences of `c` in `s`. -/
def countChar : GoString → Char → Nat
  | [], _ => 0
  | a :: as, c => countChar as c + (if a = c then 1 else 0)

/-- `http.Header.Get`: first value recorded for the key, or `""`. -/
def headerGet (h : HTTPHeader) (k : GoString) : GoString :=
  match h.find? (fun e => e.1 == k) with
  | some (_, v :: _) => v
  | _ => []

/-- `connectauth.Request`: the descriptor of a single RPC invocation handed
to the authentication function. -/
structure Request where
  Procedure : GoString
  ClientAddr : GoString
  Protocol : GoString
  Header : HTTPHeader
deriving DecidableEq

/-- An inbound `*http.Request` as the middleware observes it: URL path,
peer address, headers and the request context. -/
structure HTTPRequest (α : Type) where
  urlPath : GoString
  remoteAddr : GoString
  header : HTTPHeader
  ctx : Context α
deriving DecidableEq

/-- The protocol tag `connect.ProtocolConnect`. -/
def protocolConnect : GoString := ("connect").toList

/-- The protocol tag `connect.ProtocolGRPC`. -/
def protocolGRPC : GoString := ("grpc").toList

/-- The protocol tag `connect.ProtocolGRPCWeb`. -/
def protocolGRPCWeb : GoString := ("grpc-web").toList

/-- `procedureFromHTTP`, on the request's URL path: trim one trailing slash,
locate the last two slashes, slice from the second-to-last slash, and
require at least 4 bytes. -/
def procFromPath (p : GoString) : GoString :=
  let path := strTrimSuffix p ['/']
  match strLastIndex path '/' with
  | none => []
  | some ultimate =>
    match strLastIndex (path.take ultimate) '/' with
    | none => []
    | some penultimate =>
      let procedure := path.drop penultimate
      if procedure.length < 4 then [] else procedure

/-- `procedureFromHTTP(r)`: procedure inference from `r.URL.Path`. -/
def procedureFromHTTP {α : Type} (r : HTTPRequest α) : GoString :=
  procFromPath r.urlPath

/-- `protocolFromHTTP(r)`: protocol inference from the `Content-Type`
header (grpc-web prefix first, then grpc, else the Connect default). -/
def protocolFromHTTP {α : Type} (r : HTTPRequest α) : GoString :=
  let ct := headerGet r.header (("Content-Type").toList)
  if strHasPrefix ct (("application/grpc-web").toList) then protocolGRPCWeb
  else if strHasPrefix ct (("application/grpc").toList) then protocolGRPC
  else protocolConnect

/-- `connectauth.AuthFunc`: `func(context.Context, *Request) (any, error)`.
The result component is `Option α` (`nil` allowed), the error component
`Option ε` (`nil` meaning success). -/
def AuthFunc (α ε : Type) : Type :=
  Context α → Request → Option α × Option ε

/-- `connectauth.Middleware`: the authentication function together with the
error writer's content-type classifier (`errW.IsSupported`); the error
writer itself is external (connect library) and is observed only through
the classifier and the recorded written error. -/
structure Middleware (α ε : Type) where
  auth : AuthFunc α ε
  isSupported : HTTPRequest α → Bool

/-- The `Request` descriptor `Middleware.Wrap` builds for an HTTP request. -/
def httpDescriptor {α : Type} (r : HTTPRequest α) : Request :=
  { Procedure := procedureFromHTTP r
    ClientAddr := r.remoteAddr
    Protocol := protocolFromHTTP r
    Header := r.header }

/-- Observable outcome of one request through `Middleware.Wrap`: which
descriptors the authentication function was invoked on, which requests the
wrapped `next` handler was invoked on (in order), and the error written via
`errW.Write`, if any. -/
structure MWResult (α ε : Type) where
  authCalls : List Request
  nextCalls : List (HTTPRequest α)
  written : Option ε
deriving DecidableEq

/-- `Middleware.Wrap`, as the function from one inbound request to the
observable outcome of the wrapped handler on that request. -/
def Middleware.wrap {α ε : Type} (m : Middleware α ε) (r : HTTPRequest α) :
    MWResult α ε :=
  if !(m.isSupported r) then ⟨[], [r], none⟩
  else
    let ctx := r.ctx
    let req := httpDescriptor r
    match m.auth ctx req with
    | (_, some e) => ⟨[req], [], some e⟩
    | (info, none) =>
      let r2 := if info.isSome then { r with ctx := SetInfo ctx info } else r
      ⟨[req], [r2], none⟩

/-- `connect.Spec`, as used: the procedure name. -/
structure Spec where
  Procedure : GoString
deriving DecidableEq

/-- `connect.Peer`, as used: address and protocol. -/
structure Peer where
  Addr : GoString
  Protocol : GoString
deriving DecidableEq

/-- A unary `connect.AnyRequest`, as used: spec, peer and headers. -/
structure AnyRequest where
  spec : Spec
  peer : Peer
  header : HTTPHeader
deriving DecidableEq

/-- A `connect.StreamingHandlerConn`, as used: spec, peer and the stream's
request header (available before the first message). -/
structure StreamingHandlerConn where
  spec : Spec
  peer : Peer
  requestHeader : HTTPHeader
deriving DecidableEq

/-- `connectauth.Interceptor`. -/
structure Interceptor (α ε : Type) where
  auth : AuthFunc α ε

/-- The descriptor `WrapUnary` builds from the decoded request. -/
def unaryDescriptor (req : AnyRequest) : Request :=
  { Procedure := req.spec.Procedure
    ClientAddr := req.peer.Addr
    Protocol := req.peer.Protocol
    Header := req.header }

/-- The descriptor `WrapStreamingHandler` builds from the stream conn. -/
def streamDescriptor (conn : StreamingHandlerConn) : Request :=
  { Procedure := conn.spec.Procedure
    ClientAddr := conn.peer.Addr
    Protocol := conn.peer.Protocol
    Header := conn.requestHeader }

/-- Observable events of one intercepted call, in order: an invocation of
the authentication function on a descriptor, the start of the next stage
with the context it receives, and a stream message being read (which can
only happen inside the next stage). -/
inductive Event (α : Type) where
  | authCall (d : Request) : Event α
  | nextStart (ctx : Context α) : Event α
  | msgRead : Event α
deriving DecidableEq

/-- Is this event an authentication-function invocation? -/
def isAuthEvent {α : Type} : Event α → Bool
  | Event.authCall _ => true
  | _ => false

/-- Number of authentication-function invocations in an event log. -/
def countAuth {α : Type} (es : List (Event α)) : Nat :=
  es.countP (fun e => isAuthEvent e)

/-- `Interceptor.WrapUnary`, with the next stage modelled as a function
that also reports its own event log; the wrapped call returns the full
event log alongside the Go return value `(connect.AnyResponse, error)`. -/
def Interceptor.wrapUnaryExec {α ε ρ : Type} (i : Interceptor α ε)
    (next : Context α → AnyRequest → List (Event α) × Except ε ρ)
    (ctx : Context α) (req : AnyRequest) : List (Event α) × Except ε ρ :=
  let d := unaryDescriptor req
  match i.auth ctx d with
  | (_, some e) => ([Event.authCall d], Except.error e)
  | (info, none) =>
    let r := next (SetInfo ctx info) req
    (Event.authCall d :: Event.nextStart (SetInfo ctx info) :: r.1, r.2)

/-- `Interceptor.WrapStreamingHandler`, with the wrapped handler modelled
as a function that also reports its own event log; the Go return value is
`error` (`Option ε`). -/
def Interceptor.wrapStreamingHandlerExec {α ε : Type} (i : Interceptor α ε)
    (next : Context α → StreamingHandlerConn → List (Event α) × Option ε)
    (ctx : Context α) (conn : StreamingHandlerConn) :
    List (Event α) × Option ε :=
  let d := streamDescriptor conn
  match i.auth ctx d with
  | (_, some e) => ([Event.authCall d], some e)
  | (info, none) =>
    let r := next (SetInfo ctx info) conn
    (Event.authCall d :: Event.nextStart (SetInfo ctx info) :: r.1, r.2)

/-- The well-formedness predicate asserted by the spec for a non-empty
inferred procedure: the string is `/service/method` — a leading slash, a
non-empty service segment, a separating slash, and a non-empty method
segment (the method segment, after the last slash, contains no slash). -/
def wellFormedProcedure (s : GoString) : Bool :=
  match s with
  | '/' :: rest =>
    match strLastIndex rest '/' with
    | none => false
    | some j => decide (0 < j) && decide (j + 1 < rest.length)
  | _ => false

/-- Test fixture: an authentication function that always fails with
error `3`. -/
def authAlwaysErr : AuthFunc Nat Nat := fun _ _ => (none, some 3)

/-- Test fixture: an authentication function that succeeds with `nil`
info. -/
def authNilOk : AuthFunc Nat Nat := fun _ _ => (none, none)

/-- Test fixture: an authentication function that succeeds with info `5`. -/
def authFiveOk : AuthFunc Nat Nat := fun _ _ => (some 5, none)

/-- Test fixture: a trivial next stage for unary calls. -/
def nextUnary0 : Context Nat → AnyRequest → List (Event Nat) × Except Nat Nat :=
  fun _ _ => ([], Except.ok 0)

/-- Test fixture: a streaming handler that reads one message. -/
def nextStream0 :
    Context Nat → StreamingHandlerConn → List (Event Nat) × Option Nat :=
  fun _ _ => ([Event.msgRead], none)

/-- Test fixture: an empty unary request. -/
def req0 : AnyRequest := ⟨⟨[]⟩, ⟨[], []⟩, []⟩

/-- Test fixture: an empty streaming conn. -/
def conn0 : StreamingHandlerConn := ⟨⟨[]⟩, ⟨[], []⟩, []⟩

/-- Test fixture: an HTTP request with a given URL path and Content-Type,
on the root context. -/
def httpReq (path ct : GoString) : HTTPRequest Nat :=
  ⟨path, [], [((("Content-Type").toList), [ct])], Context.root⟩

/-- Test fixture: a context carrying info `7` from an ancestor. -/
def ctx7 : Context Nat := SetInfo Context.root (some 7)

/-- Test fixture: middleware whose auth always fails, classifier accepts. -/
def mwErr : Middleware Nat Nat := ⟨authAlwaysErr, fun _ => true⟩

/-- Test fixture: middleware whose auth succeeds with `nil` info. -/
def mwNilOk : Middleware Nat Nat := ⟨authNilOk, fun _ => true⟩

/-- Test fixture: middleware whose auth succeeds with info `5`. -/
def mwFiveOk : Middleware Nat Nat := ⟨authFiveOk, fun _ => true⟩

/-- Test fixture: middleware whose classifier rejects every request. -/
def mwUnsupported : Middleware Nat Nat := ⟨authAlwaysErr, fun _ => false⟩

/-- Test fixture: interceptor whose auth always fails. -/
def iErr : Interceptor Nat Nat := ⟨authAlwaysErr⟩

/-- Test fixture: interceptor whose auth succeeds with `nil` info. -/
def iNilOk : Interceptor Nat Nat := ⟨authNilOk⟩

/-- Test fixture: interceptor whose auth succeeds with info `5`. -/
def iFiveOk : Interceptor Nat Nat := ⟨authFiveOk⟩

/-- C3: stripping the authentication information always yields `nil` on
read — after an attach, and for every context regardless of ancestor
bindings (the strip is a positive overwrite, not a delete). -/
theorem strip_reads_null :
    ∀ (α : Type) (ctx : Context α) (x : Option α),
      GetInfo (WithoutInfo (SetInfo ctx x)) = none ∧
      GetInfo (WithoutInfo ctx) = none := by
  intro α ctx x
  exact ⟨rfl, rfl⟩

/-- C4: attaching a `nil` result is a no-op — `SetInfo` returns the very
context it was given. -/
theorem attach_null_noop :
    ∀ (α : Type) (ctx : Context α), SetInfo ctx none = ctx :=
  fun _ _ => rfl

/-- C1: whenever the authentication function returns a non-nil error, the
next stage is never invoked and the call aborts with that error — the
middleware writes the error and calls no next handler, and the unary and
streaming interceptors return the error with no next-stage event. -/
theorem auth_error_aborts :
    (∀ (α ε : Type) (m : Middleware α ε) (r : HTTPRequest α)
        (x : Option α) (e : ε),
        m.isSupported r = true →
        m.auth r.ctx (httpDescriptor r) = (x, some e) →
        (m.wrap r).nextCalls = [] ∧ (m.wrap r).written = some e) ∧
    (∀ (α ε ρ : Type) (i : Interceptor α ε)
        (next : Context α → AnyRequest → List (Event α) × Except ε ρ)
        (ctx : Context α) (req : AnyRequest) (x : Option α) (e : ε),
        i.auth ctx (unaryDescriptor req) = (x, some e) →
        i.wrapUnaryExec next ctx req =
          ([Event.authCall (unaryDescriptor req)], Except.error e)) ∧
    (∀ (α ε : Type) (i : Interceptor α ε)
        (next : Context α → StreamingHandlerConn → List (Event α) × Option ε)
        (ctx : Context α) (conn : StreamingHandlerConn)
        (x : Option α) (e : ε),
        i.auth ctx (streamDescriptor conn) = (x, some e) →
        i.wrapStreamingHandlerExec next ctx conn =
          ([Event.authCall (streamDescriptor conn)], some e)) := by
  refine ⟨?_, ?_, ?_⟩
  · intro α ε m r x e hs ha
    simp [Middleware.wrap, hs, ha]
  · intro α ε ρ i next ctx req x e ha
    simp [Interceptor.wrapUnaryExec, ha]
  · intro α ε i next ctx conn x e ha
    simp [Interceptor.wrapStreamingHandlerExec, ha]

/-- Witness for C1 at concrete inputs. -/
theorem auth_error_aborts_witness :
    ((mwErr.wrap (httpReq [] [])).nextCalls = [] ∧
      (mwErr.wrap (httpReq [] [])).written = some 3) ∧
    iErr.wrapUnaryExec nextUnary0 Context.root req0 =
      ([Event.authCall (unaryDescriptor req0)], Except.error 3) ∧
    iErr.wrapStreamingHandlerExec nextStream0 Context.root conn0 =
      ([Event.authCall (streamDescriptor conn0)], some 3) :=
  ⟨auth_error_aborts.1 Nat Nat mwErr (httpReq [] []) none 3 rfl rfl,
   auth_error_aborts.2.1 Nat Nat Nat iErr nextUnary0 Context.root req0 none 3
     rfl,
   auth_error_aborts.2.2 Nat Nat iErr nextStream0 Context.root conn0 none 3
     rfl⟩

/-- C7: a request the content-type classifier rejects is forwarded to the
wrapped handler unmodified, with no authentication call and no error
written. -/
theorem non_rpc_bypasses_auth :
    ∀ (α ε : Type) (m : Middleware α ε) (r : HTTPRequest α),
      m.isSupported r = false →
      m.wrap r = ⟨[], [r], none⟩ := by
  intro α ε m r hs
  simp [Middleware.wrap, hs]

/-- Witness for C7 at a concrete request. -/
theorem non_rpc_bypasses_auth_witness :
    mwUnsupported.wrap (httpReq [] []) = ⟨[], [httpReq [] []], none⟩ :=
  non_rpc_bypasses_auth Nat Nat mwUnsupported (httpReq [] []) rfl

/-- C2 as stated fails on the code: with an authentication function
returning result `nil` and a `nil` error, the next stage is invoked, but
the context it receives yields a `nil` (null) authentication result, not a
non-null one. -/
theorem next_observes_auth_result_counterexample :
    iNilOk.auth Context.root (unaryDescriptor req0) = (none, none) ∧
    (iNilOk.wrapUnaryExec nextUnary0 Context.root req0).1 =
      [Event.authCall (unaryDescriptor req0), Event.nextStart Context.root] ∧
    GetInfo (Context.root : Context Nat) = none :=
  ⟨rfl, rfl, rfl⟩

/-- C2 (amended to non-null results): whenever the authentication function
returns a non-nil result `x` and a `nil` error, the next stage runs on a
context from which `GetInfo` yields exactly `some x`, in both the
middleware path and the unary interceptor path. -/
theorem next_observes_auth_result :
    (∀ (α ε : Type) (m : Middleware α ε) (r : HTTPRequest α) (x : α),
        m.isSupported r = true →
        m.auth r.ctx (httpDescriptor r) = (some x, none) →
        (m.wrap r).nextCalls = [{ r with ctx := SetInfo r.ctx (some x) }] ∧
        GetInfo (SetInfo r.ctx (some x)) = some x) ∧
    (∀ (α ε ρ : Type) (i : Interceptor α ε)
        (next : Context α → AnyRequest → List (Event α) × Except ε ρ)
        (ctx : Context α) (req : AnyRequest) (x : α),
        i.auth ctx (unaryDescriptor req) = (some x, none) →
        (i.wrapUnaryExec next ctx req).1 =
          Event.authCall (unaryDescriptor req) ::
            Event.nextStart (SetInfo ctx (some x)) ::
              (next (SetInfo ctx (some x)) req).1 ∧
        GetInfo (SetInfo ctx (some x)) = some x) := by
  constructor
  · intro α ε m r x hs ha
    refine ⟨?_, rfl⟩
    simp [Middleware.wrap, hs, ha]
  · intro α ε ρ i next ctx req x ha
    refine ⟨?_, rfl⟩
    simp [Interceptor.wrapUnaryExec, ha]

/-- Witness for the amended C2 at concrete inputs. -/
theorem next_observes_auth_result_witness :
    ((mwFiveOk.wrap (httpReq [] [])).nextCalls =
        [{ httpReq [] [] with
            ctx := SetInfo (httpReq [] []).ctx (some 5) }] ∧
      GetInfo (SetInfo (httpReq [] []).ctx (some 5)) = some 5) ∧
    ((iFiveOk.wrapUnaryExec nextUnary0 Context.root req0).1 =
        Event.authCall (unaryDescriptor req0) ::
          Event.nextStart (SetInfo Context.root (some 5)) ::
            (nextUnary0 (SetInfo Context.root (some 5)) req0).1 ∧
      GetInfo (SetInfo (Context.root : Context Nat) (some 5)) = some 5) :=
  ⟨next_observes_auth_result.1 Nat Nat mwFiveOk (httpReq [] []) 5 rfl rfl,
   next_observes_auth_result.2 Nat Nat Nat iFiveOk nextUnary0 Context.root
     req0 5 rfl⟩

/-- C10 as stated fails on the code: when the authentication function
succeeds with a `nil` result, the next stage does receive the incoming
context unchanged, but `GetInfo` downstream yields whatever that incoming
context held — here `some 7`, not null. -/
theorem null_result_counterexample :
    iNilOk.auth ctx7 (unaryDescriptor req0) = (none, none) ∧
    (iNilOk.wrapUnaryExec nextUnary0 ctx7 req0).1 =
      [Event.authCall (unaryDescriptor req0), Event.nextStart ctx7] ∧
    GetInfo ctx7 = some 7 :=
  ⟨rfl, rfl, rfl⟩

/-- C10 (amended): when the authentication function succeeds with a `nil`
result, no binding is added — the middleware forwards the request itself
and the unary interceptor passes the incoming context itself to next — so
`GetInfo` downstream yields exactly what the incoming context yields
(null whenever the incoming context carried no result). -/
theorem null_result_identity :
    (∀ (α ε : Type) (m : Middleware α ε) (r : HTTPRequest α),
        m.isSupported r = true →
        m.auth r.ctx (httpDescriptor r) = (none, none) →
        m.wrap r = ⟨[httpDescriptor r], [r], none⟩) ∧
    (∀ (α ε ρ : Type) (i : Interceptor α ε)
        (next : Context α → AnyRequest → List (Event α) × Except ε ρ)
        (ctx : Context α) (req : AnyRequest),
        i.auth ctx (unaryDescriptor req) = (none, none) →
        (i.wrapUnaryExec next ctx req).1 =
          Event.authCall (unaryDescriptor req) :: Event.nextStart ctx ::
            (next ctx req).1 ∧
        (i.wrapUnaryExec next ctx req).2 = (next ctx req).2) := by
  constructor
  · intro α ε m r hs ha
    simp [Middleware.wrap, hs, ha]
  · intro α ε ρ i next ctx req ha
    constructor
    · simp [Interceptor.wrapUnaryExec, ha, SetInfo]
    · simp [Interceptor.wrapUnaryExec, ha, SetInfo]

/-- Witness for the amended C10 at concrete inputs. -/
theorem null_result_identity_witness :
    mwNilOk.wrap (httpReq [] []) =
      ⟨[httpDescriptor (httpReq [] [])], [httpReq [] []], none⟩ ∧
    ((iNilOk.wrapUnaryExec nextUnary0 Context.root req0).1 =
        Event.authCall (unaryDescriptor req0) :: Event.nextStart Context.root
          :: (nextUnary0 Context.root req0).1 ∧
      (iNilOk.wrapUnaryExec nextUnary0 Context.root req0).2 =
        (nextUnary0 Context.root req0).2) :=
  ⟨null_result_identity.1 Nat Nat mwNilOk (httpReq [] []) rfl rfl,
   null_result_identity.2 Nat Nat Nat iNilOk nextUnary0 Context.root req0
     rfl⟩

/-- C8: in both interceptor paths the authentication function runs exactly
once per call, before the next stage and before any stream message is
read: the authentication event heads the event log; on success the next
stage starts exactly once, immediately after, on the augmented context,
which it keeps for the entire call; the streaming descriptor is built from
the stream's request header. -/
theorem auth_once_before_next :
    (∀ (α ε ρ : Type) (i : Interceptor α ε)
        (next : Context α → AnyRequest → List (Event α) × Except ε ρ)
        (ctx : Context α) (req : AnyRequest),
        (i.wrapUnaryExec next ctx req).1.head? =
          some (Event.authCall (unaryDescriptor req)) ∧
        (∀ info, i.auth ctx (unaryDescriptor req) = (info, none) →
            (i.wrapUnaryExec next ctx req).1 =
              Event.authCall (unaryDescriptor req) ::
                Event.nextStart (SetInfo ctx info) ::
                  (next (SetInfo ctx info) req).1) ∧
        ((∀ c, countAuth (next c req).1 = 0) →
            countAuth (i.wrapUnaryExec next ctx req).1 = 1)) ∧
    (∀ (α ε : Type) (i : Interceptor α ε)
        (next : Context α → StreamingHandlerConn → List (Event α) × Option ε)
        (ctx : Context α) (conn : StreamingHandlerConn),
        (streamDescriptor conn).Header = conn.requestHeader ∧
        (i.wrapStreamingHandlerExec next ctx conn).1.head? =
          some (Event.authCall (streamDescriptor conn)) ∧
        (∀ info, i.auth ctx (streamDescriptor conn) = (info, none) →
            (i.wrapStreamingHandlerExec next ctx conn).1 =
              Event.authCall (streamDescriptor conn) ::
                Event.nextStart (SetInfo ctx info) ::
                  (next (SetInfo ctx info) conn).1) ∧
        ((∀ c, countAuth (next c conn).1 = 0) →
            countAuth (i.wrapStreamingHandlerExec next ctx conn).1 = 1)) := by
  constructor
  · intro α ε ρ i next ctx req
    rcases ha : i.auth ctx (unaryDescriptor req) with ⟨info, err⟩
    cases err with
    | some e =>
      refine ⟨?_, ?_, ?_⟩
      · simp [Interceptor.wrapUnaryExec, ha]
      · intro info2 h2
        simp at h2
      · intro _
        simp [Interceptor.wrapUnaryExec, ha, countAuth, isAuthEvent]
    | none =>
      refine ⟨?_, ?_, ?_⟩
      · simp [Interceptor.wrapUnaryExec, ha]
      · intro info2 h2
        simp at h2
        subst h2
        simp [Interceptor.wrapUnaryExec, ha]
      · intro hn
        simp [Interceptor.wrapUnaryExec, ha, countAuth, isAuthEvent]
        have := hn (SetInfo ctx info)
        simp [countAuth] at this
        simpa using this
  · intro α ε i next ctx conn
    refine ⟨rfl, ?_, ?_, ?_⟩
    · rcases ha : i.auth ctx (streamDescriptor conn) with ⟨info, err⟩
      cases err with
      | some e => simp [Interceptor.wrapStreamingHandlerExec, ha]
      | none => simp [Interceptor.wrapStreamingHandlerExec, ha]
    · intro info2 h2
      simp [Interceptor.wrapStreamingHandlerExec, h2]
    · intro hn
      rcases ha : i.auth ctx (streamDescriptor conn) with ⟨info, err⟩
      cases err with
      | some e =>
        simp [Interceptor.wrapStreamingHandlerExec, ha, countAuth,
          isAuthEvent]
      | none =>
        simp [Interceptor.wrapStreamingHandlerExec, ha, countAuth,
          isAuthEvent]
        have := hn (SetInfo ctx info)
        simp [countAuth] at this
        simpa using this

/-- Witness for C8 at concrete inputs. -/
theorem auth_once_before_next_witness :
    ((iFiveOk.wrapUnaryExec nextUnary0 Context.root req0).1 =
        Event.authCall (unaryDescriptor req0) ::
          Event.nextStart (SetInfo Context.root (some 5)) ::
            (nextUnary0 (SetInfo Context.root (some 5)) req0).1) ∧
    countAuth
        (iFiveOk.wrapStreamingHandlerExec nextStream0 Context.root conn0).1 =
      1 :=
  ⟨(auth_once_before_next.1 Nat Nat Nat iFiveOk nextUnary0 Context.root
      req0).2.1 (some 5) rfl,
   (auth_once_before_next.2 Nat Nat iFiveOk nextStream0 Context.root
      conn0).2.2.2 (fun _ => rfl)⟩

/-- If `c` does not occur (`LastIndex` is `-1`), its count is zero. -/
theorem countChar_of_lastIndex_none :
    ∀ (s : GoString) (c : Char), strLastIndex s c = none → countChar s c = 0 := by
  intro s c
  induction s with
  | nil => intro _; rfl
  | cons a as ih =>
    intro h
    simp only [strLastIndex] at h
    cases hm : strLastIndex as c with
    | some i => rw [hm] at h; simp at h
    | none =>
      rw [hm] at h
      by_cases hac : a = c
      · rw [if_pos hac] at h; simp at h
      · simp only [countChar, ih hm, if_neg hac]

/-- If the count of `c` is zero, `LastIndex` is `-1`. -/
theorem lastIndex_none_of_countChar_zero :
    ∀ (s : GoString) (c : Char), countChar s c = 0 → strLastIndex s c = none := by
  intro s c
  induction s with
  | nil => intro _; rfl
  | cons a as ih =>
    intro h
    simp only [countChar] at h
    by_cases hac : a = c
    · rw [if_pos hac] at h; omega
    · rw [if_neg hac, Nat.add_zero] at h
      simp only [strLastIndex, ih h, if_neg hac]

/-- Occurrences of `c`: one more than in the prefix before the last one. -/
theorem countChar_of_lastIndex_some :
    ∀ (s : GoString) (c : Char) (i : Nat), strLastIndex s c = some i →
      countChar s c = countChar (s.take i) c + 1 := by
  intro s c
  induction s with
  | nil => intro i h; simp [strLastIndex] at h
  | cons a as ih =>
    intro i h
    simp only [strLastIndex] at h
    cases hm : strLastIndex as c with
    | some j =>
      rw [hm] at h
      cases h
      simp only [List.take_succ_cons, countChar]
      rw [ih j hm]
      omega
    | none =>
      rw [hm] at h
      by_cases hac : a = c
      · rw [if_pos hac] at h
        cases h
        simp only [List.take_zero, countChar]
        rw [countChar_of_lastIndex_none as c hm, if_pos hac]
      · rw [if_neg hac] at h
        cases h

/-- The character at the index `LastIndex` reports is the needle. -/
theorem getElem_of_lastIndex :
    ∀ (s : GoString) (c : Char) (i : Nat), strLastIndex s c = some i →
      s[i]? = some c := by
  intro s c
  induction s with
  | nil => intro i h; simp [strLastIndex] at h
  | cons a as ih =>
    intro i h
    simp only [strLastIndex] at h
    cases hm : strLastIndex as c with
    | some j =>
      rw [hm] at h
      cases h
      simpa using ih j hm
    | none =>
      rw [hm] at h
      by_cases hac : a = c
      · rw [if_pos hac] at h
        cases h
        simp [hac]
      · rw [if_neg hac] at h
        cases h

/-- The index `LastIndex` reports is within bounds. -/
theorem lastIndex_lt_length :
    ∀ (s : GoString) (c : Char) (i : Nat), strLastIndex s c = some i →
      i < s.length := by
  intro s c i h
  exact (List.getElem?_eq_some.mp (getElem_of_lastIndex s c i h)).1

/-- C5: protocol inference dispatches on the Content-Type prefix, checking
grpc-web before grpc, with the Connect protocol as default; concretely the
three canonical content types map to their tags, and the grpc-web content
type also matches the grpc prefix yet maps to grpc-web because that check
runs first. -/
theorem protocol_inference :
    (∀ (α : Type) (r : HTTPRequest α),
        protocolFromHTTP r =
          (if strHasPrefix (headerGet r.header (("Content-Type").toList))
              (("application/grpc-web").toList) then protocolGRPCWeb
           else if strHasPrefix (headerGet r.header (("Content-Type").toList))
              (("application/grpc").toList) then protocolGRPC
           else protocolConnect)) ∧
    protocolFromHTTP (httpReq [] (("application/grpc-web+proto").toList)) =
      protocolGRPCWeb ∧
    protocolFromHTTP (httpReq [] (("application/grpc+proto").toList)) =
      protocolGRPC ∧
    protocolFromHTTP (httpReq [] (("application/json").toList)) =
      protocolConnect ∧
    strHasPrefix (("application/grpc-web+proto").toList)
        (("application/grpc").toList) = true ∧
    protocolFromHTTP (httpReq [] (("application/grpc-web").toList)) =
      protocolGRPCWeb :=
  ⟨fun _ _ => rfl, by decide, by decide, by decide, by decide, by decide⟩

/-- C6: procedure inference strips one trailing slash and returns the final
two path segments: the two example paths yield `/pkg.Service/Method`, the
single-segment path yields the empty string, any path whose trimmed form
holds fewer than two slashes yields the empty string, and every answer is
empty or at least 4 bytes long. -/
theorem procedure_inference :
    procFromPath (("/pkg.Service/Method").toList) =
      ("/pkg.Service/Method").toList ∧
    procFromPath (("/pkg.Service/Method/").toList) =
      ("/pkg.Service/Method").toList ∧
    procFromPath (("/Method").toList) = [] ∧
    (∀ p : GoString,
        countChar (strTrimSuffix p ['/']) '/' < 2 →
        procFromPath p = []) ∧
    (∀ p : GoString, procFromPath p = [] ∨ 4 ≤ (procFromPath p).length) := by
  refine ⟨by decide, by decide, by decide, ?_, ?_⟩
  · intro p hcount
    simp only [procFromPath]
    split
    · rfl
    · rename_i u hu
      have h1 := countChar_of_lastIndex_some _ '/' u hu
      have h0 : countChar ((strTrimSuffix p ['/']).take u) '/' = 0 := by
        omega
      have h2 := lastIndex_none_of_countChar_zero _ '/' h0
      rw [h2]
  · intro p
    simp only [procFromPath]
    split
    · exact Or.inl rfl
    · rename_i u hu
      split
      · exact Or.inl rfl
      · rename_i pen hp
        by_cases hlen : ((strTrimSuffix p ['/']).drop pen).length < 4
        · exact Or.inl (if_pos hlen)
        · refine Or.inr ?_
          rw [if_neg hlen]
          omega

/-- Witness for C6 at the single-segment path. -/
theorem procedure_inference_witness :
    countChar (strTrimSuffix (("/Method").toList) ['/']) '/' < 2 ∧
    procFromPath (("/Method").toList) = [] :=
  ⟨by decide, procedure_inference.2.2.2.1 (("/Method").toList) (by decide)⟩

/-- C9 fails as stated: on path `//ab` the inferred procedure is the
non-empty string `//ab`, whose service segment (between the two slashes)
is empty, so the result is not of the form `/service/method` with both
segments non-empty. -/
theorem procedure_shape_counterexample :
    procFromPath (("//ab").toList) = ("//ab").toList ∧
    procFromPath (("//ab").toList) ≠ [] ∧
    wellFormedProcedure (procFromPath (("//ab").toList)) = false :=
  ⟨by decide, by decide, by decide⟩

/-- C9 (amended): every non-empty inferred procedure is at least 4 bytes
long, begins with a slash, and contains a second slash later on; the
service or method segment between the slashes may still be empty. -/
theorem procedure_shape :
    ∀ p : GoString, procFromPath p ≠ [] →
      4 ≤ (procFromPath p).length ∧
      (procFromPath p).head? = some '/' ∧
      '/' ∈ (procFromPath p).tail := by
  intro p hne
  simp only [procFromPath] at hne ⊢
  split
  · rename_i hu
    simp only [hu] at hne
    exact absurd rfl hne
  · rename_i u hu
    simp only [hu] at hne
    split
    · rename_i hp
      simp only [hp] at hne
      exact absurd rfl hne
    · rename_i pen hp
      simp only [hp] at hne
      by_cases hlen : ((strTrimSuffix p ['/']).drop pen).length < 4
      · rw [if_pos hlen] at hne
        exact absurd rfl hne
      · rw [if_neg hlen]
        have hbound := lastIndex_lt_length _ '/' pen hp
        have hpenu : pen < u := by
          rw [List.length_take] at hbound
          omega
        have hgetpen : (strTrimSuffix p ['/'])[pen]? = some '/' := by
          have := getElem_of_lastIndex _ '/' pen hp
          rwa [List.getElem?_take_of_lt hpenu] at this
        have hgetu : (strTrimSuffix p ['/'])[u]? = some '/' :=
          getElem_of_lastIndex _ '/' u hu
        refine ⟨by omega, ?_, ?_⟩
        · rw [List.head?_eq_getElem?, List.getElem?_drop, Nat.add_zero]
          exact hgetpen
        · rw [List.tail_drop]
          refine List.getElem?_mem (n := u - (pen + 1)) ?_
          rw [List.getElem?_drop]
          have heq : pen + 1 + (u - (pen + 1)) = u := by omega
          rw [heq]
          exact hgetu

/-- Witness for the amended C9 at a concrete path. -/
theorem procedure_shape_witness :
    procFromPath (("/pkg.Service/Method").toList) ≠ [] ∧
    (4 ≤ (procFromPath (("/pkg.Service/Method").toList)).length ∧
      (procFromPath (("/pkg.Service/Method").toList)).head? = some '/' ∧
      '/' ∈ (procFromPath (("/pkg.Service/Method").toList)).tail) :=
  ⟨by decide, procedure_shape (("/pkg.Service/Method").toList) (by decide)⟩

end Connectauth
